import Mathlib

/-!
Verification of the record-conversion and HTTP-mediation layer of the
libdns-immosquare provider (`provider.go`).  The Go source is shallowly
embedded: pure string manipulation is modelled over `List Char` / `String`,
`time.Duration` is modelled as `Int` nanoseconds, HTTP traffic is modelled by
passing the response status (and, for GET, the parsed JSON body) as explicit
inputs and recording the outgoing request as data.
-/

namespace LibdnsImmosquare

/-- ASCII upper-casing of one character, modelling `strings.ToUpper` as used on
record type tags (the tags handled by the provider are ASCII). -/
def upChar (c : Char) : Char :=
  if 'a' ≤ c ∧ c ≤ 'z' then Char.ofNat (c.toNat - 32) else c

/-- ASCII upper-casing of a string, modelling `strings.ToUpper`. -/
def upper (s : String) : String :=
  ⟨s.data.map upChar⟩

/-- ASCII lower-casing of one character (used for the case-insensitive JSON
field-name match of `encoding/json`). -/
def lowChar (c : Char) : Char :=
  if 'A' ≤ c ∧ c ≤ 'Z' then Char.ofNat (c.toNat + 32) else c

/-- ASCII lower-casing of a string. -/
def lower (s : String) : String :=
  ⟨s.data.map lowChar⟩

/-- Whitespace predicate of `unicode.IsSpace`, as used by `strings.Fields`. -/
def goIsSpace (c : Char) : Bool :=
  c.toNat = 32 || c.toNat = 9 || c.toNat = 10 || c.toNat = 11 || c.toNat = 12 ||
  c.toNat = 13 || c.toNat = 133 || c.toNat = 160 || c.toNat = 5760 ||
  (8192 ≤ c.toNat && c.toNat ≤ 8202) || c.toNat = 8232 || c.toNat = 8233 ||
  c.toNat = 8239 || c.toNat = 8287 || c.toNat = 12288

/-- Accumulator-based splitter behind `fieldsList`; `acc` holds the current
word reversed. -/
def fieldsAux : List Char → List Char → List (List Char)
  | [], acc => match acc with
    | [] => []
    | _ :: _ => [acc.reverse]
  | c :: cs, acc =>
    if goIsSpace c then
      match acc with
      | [] => fieldsAux cs []
      | _ :: _ => acc.reverse :: fieldsAux cs []
    else fieldsAux cs (c :: acc)

/-- Splitting a character list around runs of whitespace, modelling
`strings.Fields`. -/
def fieldsList (l : List Char) : List (List Char) :=
  fieldsAux l []

/-- String-level `strings.Fields`. -/
def fieldsS (s : String) : List String :=
  (fieldsList s.data).map (fun w => (⟨w⟩ : String))

/-- Joining words with single spaces, modelling `strings.Join(parts, " ")`. -/
def joinSpace : List (List Char) → List Char
  | [] => []
  | [w] => w
  | w :: ws => w ++ ' ' :: joinSpace ws

/-- String-level `strings.Join(parts, " ")`. -/
def joinSpaceS (ws : List String) : String :=
  ⟨joinSpace (ws.map String.data)⟩

/-- Big-endian base-`b` digit list of `n`, with explicit fuel (the fuel is
always instantiated with `n + 1`, which suffices). -/
def baseDigits (b : Nat) : Nat → Nat → List Nat
  | 0, _ => []
  | fuel + 1, n => if n < b then [n] else baseDigits b fuel (n / b) ++ [n % b]

/-- Decimal character representation of a natural number (`fmt.Sprintf "%d"`). -/
def decChars (n : Nat) : List Char :=
  (baseDigits 10 (n + 1) n).map Nat.digitChar

/-- Lower-case hexadecimal character representation of a natural number. -/
def hexChars (n : Nat) : List Char :=
  (baseDigits 16 (n + 1) n).map Nat.digitChar

/-- Numeric value of a big-endian list of decimal digit characters. -/
def digitsVal (ds : List Char) : Nat :=
  ds.foldl (fun a c => a * 10 + (c.toNat - 48)) 0

/-- Value of one hexadecimal digit character, accepting both cases. -/
def hexVal (c : Char) : Option Nat :=
  if '0' ≤ c ∧ c ≤ '9' then some (c.toNat - 48)
  else if 'a' ≤ c ∧ c ≤ 'f' then some (c.toNat - 87)
  else if 'A' ≤ c ∧ c ≤ 'F' then some (c.toNat - 55)
  else none

/-- Accumulating hexadecimal evaluator for a character list. -/
def hexValAux : List Char → Nat → Option Nat
  | [], a => some a
  | c :: cs, a =>
    match hexVal c with
    | none => none
    | some d => hexValAux cs (a * 16 + d)

/-- Embedding of the source's `parseUint16` (`fmt.Sscanf(s, "%d", &u16)`)
applied to a whitespace-free token: the scan consumes the maximal leading run
of decimal digits and ignores any remaining characters of the token, failing
when the token does not start with a digit or when the scanned value
overflows 16 bits. -/
def parseUint16 (s : String) : Option Nat :=
  match s.data.takeWhile Char.isDigit with
  | [] => none
  | ds =>
    let n := digitsVal ds
    if n ≤ 65535 then some n else none

inductive IPAddr
  | v4 (a b c d : Fin 256)
  | v6 (g1 g2 g3 g4 g5 g6 g7 g8 : Fin 65536)
deriving DecidableEq

/-- Family test of an address (`netip.Addr.Is4`). -/
def IPAddr.isV4 : IPAddr → Bool
  | .v4 .. => true
  | .v6 .. => false

/-- Parse one dotted-decimal IPv4 field: one to three decimal digits, no
leading zero, value at most 255. -/
def parseOctet (p : List Char) : Option (Fin 256) :=
  if p = [] then none
  else if ¬ (p.all Char.isDigit) then none
  else if 3 < p.length then none
  else if p.head? = some '0' ∧ p ≠ ['0'] then none
  else
    let v := digitsVal p
    if h : v < 256 then some ⟨v, h⟩ else none

/-- Parse one colon-hexadecimal IPv6 group: one to four hex digits. -/
def parseGroup (p : List Char) : Option (Fin 65536) :=
  if p = [] then none
  else if 4 < p.length then none
  else
    match hexValAux p 0 with
    | none => none
    | some v => if h : v < 65536 then some ⟨v, h⟩ else none

/-- Parse a dotted-decimal IPv4 address. -/
def parseV4 (cs : List Char) : Option IPAddr :=
  match cs.splitOn '.' with
  | [p1, p2, p3, p4] =>
    match parseOctet p1, parseOctet p2, parseOctet p3, parseOctet p4 with
    | some a, some b, some c, some d => some (.v4 a b c d)
    | _, _, _, _ => none
  | _ => none

/-- Parse an uncompressed colon-hexadecimal IPv6 address. -/
def parseV6 (cs : List Char) : Option IPAddr :=
  match cs.splitOn ':' with
  | [p1, p2, p3, p4, p5, p6, p7, p8] =>
    match parseGroup p1, parseGroup p2, parseGroup p3, parseGroup p4,
        parseGroup p5, parseGroup p6, parseGroup p7, parseGroup p8 with
    | some g1, some g2, some g3, some g4, some g5, some g6, some g7, some g8 =>
      some (.v6 g1 g2 g3 g4 g5 g6 g7 g8)
    | _, _, _, _, _, _, _, _ => none
  | _ => none

/-- Character class deciding the address family, modelling the first `.` or
`:` encountered by `netip.ParseAddr`. -/
def dotColon (c : Char) : Bool :=
  c == '.' || c == ':'

/-- Modelled from the spec: `netip.ParseAddr` — the first separator character
decides the family, then the family-specific grammar must match the whole
string. -/
def parseAddr (s : String) : Option IPAddr :=
  match s.data.find? dotColon with
  | some c => if c = '.' then parseV4 s.data else parseV6 s.data
  | none => none

/-- Modelled from the spec: the canonical textual form of an address as
produced by `netip.Addr.String`. -/
def ipString : IPAddr → String
  | .v4 a b c d =>
    ⟨[('.' : Char)].intercalate [decChars a.val, decChars b.val, decChars c.val, decChars d.val]⟩
  | .v6 g1 g2 g3 g4 g5 g6 g7 g8 =>
    ⟨[(':' : Char)].intercalate [hexChars g1.val, hexChars g2.val, hexChars g3.val,
      hexChars g4.val, hexChars g5.val, hexChars g6.val, hexChars g7.val, hexChars g8.val]⟩

/-- Generic record shape, modelling `libdns.RR` (per spec section 3 the
canonical `name`/`type`/`data`/`ttl` projection); `ttl` is a
`time.Duration` in nanoseconds. -/
structure RRrec where
  name : String
  type : String
  data : String
  ttl : Int
deriving DecidableEq

/-- Raw record of a GET response body (`name`/`type`/`value`/`ttl` with the
ttl in whole seconds), embedding the anonymous struct of `GetRecords`. -/
structure RawRecord where
  name : String
  type : String
  value : String
  ttl : Int
deriving DecidableEq

/-- The `libdns.Record` union as used by the provider: the typed variants
`Address`, `TXT`, `CNAME`, `MX`, `NS` plus the generic `RR` fallback. -/
inductive Record
  | address (name : String) (ttl : Int) (ip : IPAddr)
  | txt (name : String) (ttl : Int) (text : String)
  | cname (name : String) (ttl : Int) (target : String)
  | mx (name : String) (ttl : Int) (preference : Nat) (target : String)
  | ns (name : String) (ttl : Int) (target : String)
  | rr (r : RRrec)
deriving DecidableEq

/-- Modelled from the spec: the Generic projection (`record.RR()` of the
external libdns package, spec section 3): `Address` tags `"A"` or `"AAAA"` by
family and prints the address, `MX` encodes its data as
`"<preference> <target>"`, the others carry their value verbatim. -/
def Record.RR : Record → RRrec
  | .address name ttl ip => ⟨name, if ip.isV4 then "A" else "AAAA", ipString ip, ttl⟩
  | .txt name ttl text => ⟨name, "TXT", text, ttl⟩
  | .cname name ttl target => ⟨name, "CNAME", target, ttl⟩
  | .mx name ttl preference target => ⟨name, "MX", ⟨decChars preference ++ ' ' :: target.data⟩, ttl⟩
  | .ns name ttl target => ⟨name, "NS", target, ttl⟩
  | .rr r => r

/-- The MX preference/target computation that `provider.go` repeats verbatim
in `convertAPIRecordToLibDNS` and in `convertToSpecificTypes`: split the value
on whitespace; with at least two fields and a scannable first field the first
field is the preference and the remaining fields re-join with single spaces,
otherwise the preference defaults to 10 and the target is the whole value. -/
def mxParse (value : String) : Nat × String :=
  match fieldsS value with
  | p0 :: p1 :: rest =>
    match parseUint16 p0 with
    | some pref => (pref, joinSpaceS (p1 :: rest))
    | none => (10, value)
  | _ => (10, value)

/-- Embedding of `convertAPIRecordToLibDNS`: case-insensitive dispatch on the
type tag, failing only on an unparsable A/AAAA value. -/
def convertAPIRecordToLibDNS (apiRecord : RawRecord) : Except String Record :=
  let ttl : Int := apiRecord.ttl * 1000000000
  let t := upper apiRecord.type
  if t = "A" ∨ t = "AAAA" then
    match parseAddr apiRecord.value with
    | none => .error ("invalid IP address " ++ apiRecord.value)
    | some ip => .ok (.address apiRecord.name ttl ip)
  else if t = "TXT" then .ok (.txt apiRecord.name ttl apiRecord.value)
  else if t = "CNAME" then .ok (.cname apiRecord.name ttl apiRecord.value)
  else if t = "MX" then
    .ok (.mx apiRecord.name ttl (mxParse apiRecord.value).1 (mxParse apiRecord.value).2)
  else if t = "NS" then .ok (.ns apiRecord.name ttl apiRecord.value)
  else .ok (.rr ⟨apiRecord.name, apiRecord.type, apiRecord.value, ttl⟩)

/-- Embedding of the loop body of `convertToSpecificTypes`: the same dispatch
table applied to the record's Generic projection, keeping the `RR` when an
A/AAAA value does not parse. -/
def retypeOne (record : Record) : Record :=
  let rr := record.RR
  let t := upper rr.type
  if t = "A" ∨ t = "AAAA" then
    match parseAddr rr.data with
    | none => .rr rr
    | some ip => .address rr.name rr.ttl ip
  else if t = "TXT" then .txt rr.name rr.ttl rr.data
  else if t = "CNAME" then .cname rr.name rr.ttl rr.data
  else if t = "MX" then .mx rr.name rr.ttl (mxParse rr.data).1 (mxParse rr.data).2
  else if t = "NS" then .ns rr.name rr.ttl rr.data
  else .rr rr

/-- Embedding of `convertToSpecificTypes`: the source's `for` loop appending
one converted record per input record to `result`. -/
def convertToSpecificTypes (records : List Record) : List Record :=
  records.foldl (fun result record => result ++ [retypeOne record]) []

/-- Embedding of the record-conversion loops of `GetRecords`: every raw
record is converted in order and the first conversion error aborts. -/
def convertRecords : List RawRecord → Except String (List Record)
  | [] => .ok []
  | r :: rs => do
    let record ← convertAPIRecordToLibDNS r
    let records ← convertRecords rs
    .ok (record :: records)

/-- Parsed JSON values (numbers are restricted to integers, which covers
every record body shape the provider exchanges). -/
inductive Json
  | null
  | bool (b : Bool)
  | num (n : Int)
  | str (s : String)
  | arr (elems : List Json)
  | obj (members : List (String × Json))

/-- Modelled from the documented behaviour of `encoding/json`: object keys
match a struct field case-insensitively and a later duplicate key wins. -/
def lookupJson (ms : List (String × Json)) (field : String) : Option Json :=
  ((ms.filter (fun m => lower m.1 = lower field)).getLast?).map (fun m => m.2)

/-- Unmarshal a JSON value into a `string` field (`null` leaves the zero
value, anything but a string is a type error). -/
def asString : Json → Except String String
  | .str s => .ok s
  | .null => .ok ""
  | _ => .error "cannot unmarshal into string"

/-- Unmarshal a JSON value into an `int` field. -/
def asInt : Json → Except String Int
  | .num n => .ok n
  | .null => .ok 0
  | _ => .error "cannot unmarshal into int"

/-- Unmarshal one element of a record list into the raw
`name`/`type`/`value`/`ttl` struct (unknown members are ignored, `null`
leaves the zero struct). -/
def unmarshalRaw : Json → Except String RawRecord
  | .null => .ok ⟨"", "", "", 0⟩
  | .obj ms => do
    let name ← match lookupJson ms "name" with
      | none => Except.ok ""
      | some v => asString v
    let type ← match lookupJson ms "type" with
      | none => Except.ok ""
      | some v => asString v
    let value ← match lookupJson ms "value" with
      | none => Except.ok ""
      | some v => asString v
    let ttl ← match lookupJson ms "ttl" with
      | none => Except.ok (0 : Int)
      | some v => asInt v
    Except.ok ⟨name, type, value, ttl⟩
  | _ => .error "cannot unmarshal into record object"

/-- Unmarshal a list of record elements, first error aborts. -/
def unmarshalRawList : List Json → Except String (List RawRecord)
  | [] => .ok []
  | j :: js => do
    let r ← unmarshalRaw j
    let rs ← unmarshalRawList js
    .ok (r :: rs)

/-- Unmarshal into `[]RawRecord` (`null` leaves a nil slice; a non-array is a
type error). -/
def unmarshalRawArray : Json → Except String (List RawRecord)
  | .null => .ok []
  | .arr es => unmarshalRawList es
  | _ => .error "cannot unmarshal into record array"

/-- Unmarshal into the anonymous struct with a `Records` field: any JSON
object is accepted (a missing or null `records` member leaves the nil
slice), `null` leaves the zero struct, anything else is a type error. -/
def unmarshalRecordsObj : Json → Except String (List RawRecord)
  | .null => .ok []
  | .obj ms =>
    match lookupJson ms "records" with
    | none => .ok []
    | some v => unmarshalRawArray v
  | _ => .error "cannot unmarshal into records object"

/-- Embedding of the body-decoding part of `GetRecords` (lines 98-142):
object shape first, bare array on failure, decode error when both fail;
conversion errors propagate from either branch. -/
def decodeGetBody (body : Json) : Except String (List Record) :=
  match unmarshalRecordsObj body with
  | .ok raws => convertRecords raws
  | .error _ =>
    match unmarshalRawArray body with
    | .ok raws => convertRecords raws
    | .error _ => .error "JSON decoding error"

/-- One record of a write request body: the `map[string]interface` with
`name`/`type`/`data` and a ttl in whole seconds.  The constant
`records` wrapper object is implicit in `HttpRequest.body`. -/
structure WireRecord where
  name : String
  type : String
  data : String
  ttl : Int
deriving DecidableEq

/-- An outgoing HTTP request as constructed by `makeRequest`. -/
structure HttpRequest where
  method : String
  url : String
  body : Option (List WireRecord)
deriving DecidableEq

/-- Result of one provider operation: the request that went out (if any) and
the returned record list or error. -/
structure OpOutcome where
  call : Option HttpRequest
  result : Except String (List Record)

/-- The 120-second minimum TTL, in nanoseconds (`defaultMinTTL`). -/
def defaultMinTTL : Int := 120 * 1000000000

/-- Whole seconds of a nanosecond duration, truncated toward zero, modelling
`int(d.Seconds())`. -/
def secondsOf (d : Int) : Int :=
  if d < 0 then -(((-d).toNat / 1000000000 : Nat) : Int)
  else ((d.toNat / 1000000000 : Nat) : Int)

/-- Embedding of `makeRequest`: fails when no endpoint is configured,
otherwise produces the request with `url = endpoint + path`. -/
def makeRequest (endpoint method path : String) (body : Option (List WireRecord)) :
    Except String HttpRequest :=
  if endpoint = "" then .error "endpoint is required for the immosquare provider"
  else .ok ⟨method, endpoint ++ path, body⟩

/-- Embedding of `GetRecords`; the HTTP response is an explicit input (status
and parsed JSON body). -/
def GetRecords (endpoint zone : String) (status : Nat) (body : Json) : OpOutcome :=
  match makeRequest endpoint "GET" ("/zones/" ++ zone ++ "/records") none with
  | .error e => ⟨none, .error e⟩
  | .ok req =>
    ⟨some req, if status ≠ 200 then .error "API error" else decodeGetBody body⟩

/-- Embedding of `AppendRecords`: empty-batch short-circuit, encode with the
TTL floor, POST, 201/200 required, result re-typed from the input. -/
def AppendRecords (endpoint zone : String) (records : List Record) (status : Nat) : OpOutcome :=
  if records = [] then ⟨none, .ok []⟩
  else
    let apiRecords := records.foldl (fun acc record =>
      let rr := record.RR
      let ttl := if rr.ttl < defaultMinTTL then defaultMinTTL else rr.ttl
      acc ++ [(⟨rr.name, rr.type, rr.data, secondsOf ttl⟩ : WireRecord)]) []
    match makeRequest endpoint "POST" ("/zones/" ++ zone ++ "/records") (some apiRecords) with
    | .error e => ⟨none, .error e⟩
    | .ok req =>
      ⟨some req,
        if status ≠ 201 ∧ status ≠ 200 then .error "API error during addition"
        else .ok (convertToSpecificTypes records)⟩

/-- Embedding of `SetRecords`: as append but PUT with 200 required. -/
def SetRecords (endpoint zone : String) (records : List Record) (status : Nat) : OpOutcome :=
  if records = [] then ⟨none, .ok []⟩
  else
    let apiRecords := records.foldl (fun acc record =>
      let rr := record.RR
      let ttl := if rr.ttl < defaultMinTTL then defaultMinTTL else rr.ttl
      acc ++ [(⟨rr.name, rr.type, rr.data, secondsOf ttl⟩ : WireRecord)]) []
    match makeRequest endpoint "PUT" ("/zones/" ++ zone ++ "/records") (some apiRecords) with
    | .error e => ⟨none, .error e⟩
    | .ok req =>
      ⟨some req,
        if status ≠ 200 then .error "API error during update"
        else .ok (convertToSpecificTypes records)⟩

/-- Embedding of `DeleteRecords`: no TTL floor, DELETE, 200/204 yields the
re-typed input and every other status an empty success. -/
def DeleteRecords (endpoint zone : String) (records : List Record) (status : Nat) : OpOutcome :=
  if records = [] then ⟨none, .ok []⟩
  else
    let apiRecords := records.foldl (fun acc record =>
      let rr := record.RR
      acc ++ [(⟨rr.name, rr.type, rr.data, secondsOf rr.ttl⟩ : WireRecord)]) []
    match makeRequest endpoint "DELETE" ("/zones/" ++ zone ++ "/records") (some apiRecords) with
    | .error e => ⟨none, .error e⟩
    | .ok req =>
      ⟨some req,
        if status = 200 ∨ status = 204 then .ok (convertToSpecificTypes records)
        else .ok []⟩

instance {e a : Type} [DecidableEq e] [DecidableEq a] : DecidableEq (Except e a) := fun x y =>
  match x, y with
  | .ok v, .ok w =>
    if h : v = w then isTrue (by rw [h]) else isFalse (by intro hc; cases hc; exact h rfl)
  | .error v, .error w =>
    if h : v = w then isTrue (by rw [h]) else isFalse (by intro hc; cases hc; exact h rfl)
  | .ok _, .error _ => isFalse (by intro hc; cases hc)
  | .error _, .ok _ => isFalse (by intro hc; cases hc)

def specParseUint16 (s : String) : Option Nat :=
  if s.data ≠ [] ∧ s.data.all Char.isDigit ∧ digitsVal s.data ≤ 65535 then
    some (digitsVal s.data)
  else none

def specMxParse (value : String) : Nat × String :=
  match fieldsS value with
  | p0 :: p1 :: rest =>
    match specParseUint16 p0 with
    | some pref => (pref, joinSpaceS (p1 :: rest))
    | none => (10, value)
  | _ => (10, value)

def C1Claim : Prop :=
  (∀ r : RawRecord, upper r.type = "MX" →
    convertAPIRecordToLibDNS r =
      .ok (.mx r.name (r.ttl * 1000000000) (specMxParse r.value).1 (specMxParse r.value).2)) ∧
  (∀ record : Record, upper record.RR.type = "MX" →
    retypeOne record =
      .mx record.RR.name record.RR.ttl
        (specMxParse record.RR.data).1 (specMxParse record.RR.data).2)

inductive SemVal
  | ipv (a : Option IPAddr)
  | mxv (pt : Nat × String)
  | plain (d : String)
deriving DecidableEq

def semVal (r : RRrec) : SemVal :=
  if upper r.type = "A" ∨ upper r.type = "AAAA" then .ipv (parseAddr r.data)
  else if upper r.type = "MX" then .mxv (mxParse r.data)
  else .plain r.data

def semEq (r1 r2 : RRrec) : Prop :=
  r1.name = r2.name ∧ upper r1.type = upper r2.type ∧ r1.ttl = r2.ttl ∧ semVal r1 = semVal r2

def C4Claim : Prop :=
  ∀ record : Record, semEq (retypeOne record).RR record.RR

def normWord (t : String) : Prop :=
  joinSpaceS (fieldsS t) = t ∧ t ≠ ""

def roundtripSafe : Record → Prop
  | .mx _ _ preference target => preference < 65536 ∧ normWord target
  | .rr r =>
    (upper r.type = "MX" → normWord (mxParse r.data).2) ∧
    (upper r.type = "A" → ∀ ip, parseAddr r.data = some ip → ip.isV4 = true) ∧
    (upper r.type = "AAAA" → ∀ ip, parseAddr r.data = some ip → ip.isV4 = false)
  | _ => True

/-- Claim-side description of one append/set wire record: the ttl is floored
at 120 seconds. -/
def wireFloor (record : Record) : WireRecord :=
  ⟨record.RR.name, record.RR.type, record.RR.data,
    if defaultMinTTL ≤ record.RR.ttl then secondsOf record.RR.ttl else 120⟩

/-- Claim-side description of one delete wire record: the ttl is encoded
without any floor. -/
def wirePlain (record : Record) : WireRecord :=
  ⟨record.RR.name, record.RR.type, record.RR.data, secondsOf record.RR.ttl⟩

/-- Upper-case hexadecimal digit, for percent-encoding. -/
def hexUpper (d : Nat) : Char :=
  if d < 10 then Char.ofNat (48 + d) else Char.ofNat (55 + d)

/-- Percent-encoding of one byte. -/
def percentByte (b : UInt8) : List Char :=
  ['%', hexUpper (b.toNat / 16), hexUpper (b.toNat % 16)]

/-- Characters a path segment may carry unescaped (RFC 3986 unreserved
characters and the sub-delimiters `url.PathEscape` keeps; the apostrophe,
also kept by Go, is irrelevant to zone names and omitted). -/
def pathSegmentSafe (c : Char) : Bool :=
  c.isAlphanum || c == '-' || c == '.' || c == '_' || c == '~' || c == '$' ||
  c == '&' || c == '+' || c == ':' || c == '=' || c == '@' || c == '!' ||
  c == '(' || c == ')' || c == '*' || c == ',' || c == ';'

/-- Modelled from the spec: RFC 3986 path-segment escaping as performed by
`url.PathEscape` (the spec requires the zone to reach the URL "in
path-escaped form"). -/
def pathEscape (s : String) : String :=
  ⟨(s.data.map (fun c =>
      if pathSegmentSafe c then [c]
      else ((String.utf8EncodeChar c).map percentByte).flatten)).flatten⟩

/-- Formalisation of claim C9 as stated: every operation's request URL is the
endpoint, `/zones/`, the path-escaped zone, and `/records`. -/
def C9Claim : Prop :=
  ∀ (endpoint zone : String) (records : List Record) (status : Nat) (body : Json)
    (req : HttpRequest),
    ((GetRecords endpoint zone status body).call = some req ∨
      (AppendRecords endpoint zone records status).call = some req ∨
      (SetRecords endpoint zone records status).call = some req ∨
      (DeleteRecords endpoint zone records status).call = some req) →
    req.url = endpoint ++ "/zones/" ++ pathEscape zone ++ "/records"

/-- Canonical JSON encoding of a raw record, for comparing the two accepted
GET body shapes. -/
def encodeRaw (r : RawRecord) : Json :=
  .obj [("name", .str r.name), ("type", .str r.type), ("value", .str r.value),
    ("ttl", .num r.ttl)]

/-- Formalisation of claim C10 as stated: any JSON object body succeeds, with
an empty result when it has no `records` member. -/
def C10Claim : Prop :=
  ∀ ms : List (String × Json), ∃ out, decodeGetBody (Json.obj ms) = .ok out ∧
    (lookupJson ms "records" = none → out = [])

/-! ### Theorems -/

theorem fieldsAux_append (w : List Char) (hw : ∀ c ∈ w, goIsSpace c = false) :
    ∀ (rest acc : List Char), fieldsAux (w ++ rest) acc = fieldsAux rest (w.reverse ++ acc) := by
  induction w with
  | nil => intro rest acc; simp
  | cons c w ih =>
    intro rest acc
    have hc : goIsSpace c = false := hw c (List.mem_cons_self ..)
    have hw' : ∀ d ∈ w, goIsSpace d = false := fun d hd => hw d (List.mem_cons_of_mem _ hd)
    simp only [List.cons_append, fieldsAux, hc, Bool.false_eq_true, if_false, List.append_eq]
    rw [ih hw' rest (c :: acc)]
    simp

theorem fieldsList_space_cons (t : List Char) : fieldsList (' ' :: t) = fieldsList t := by
  simp [fieldsList, fieldsAux, goIsSpace]

theorem fieldsList_word_space (w t : List Char) (hne : w ≠ [])
    (hw : ∀ c ∈ w, goIsSpace c = false) :
    fieldsList (w ++ ' ' :: t) = w :: fieldsList t := by
  unfold fieldsList
  rw [fieldsAux_append w hw (' ' :: t) []]
  obtain ⟨c, w', hw'⟩ := List.exists_cons_of_ne_nil hne
  have hrev : w.reverse ≠ [] := by simp [hw']
  obtain ⟨d, r', hr'⟩ := List.exists_cons_of_ne_nil hrev
  simp only [List.append_nil, fieldsAux, hr']
  have : goIsSpace ' ' = true := by decide
  simp only [this, if_true]
  rw [← hr']
  simp [fieldsList]

theorem fieldsList_word (w : List Char) (hne : w ≠ [])
    (hw : ∀ c ∈ w, goIsSpace c = false) :
    fieldsList w = [w] := by
  unfold fieldsList
  have h := fieldsAux_append w hw [] []
  rw [List.append_nil] at h
  rw [h]
  obtain ⟨c, w', hw'⟩ := List.exists_cons_of_ne_nil hne
  have hrev : w.reverse ≠ [] := by simp [hw']
  obtain ⟨d, r', hr'⟩ := List.exists_cons_of_ne_nil hrev
  simp only [List.append_nil, fieldsAux, hr']
  rw [← hr']
  simp

theorem fieldsAux_sound (l : List Char) :
    ∀ acc : List Char, (∀ c ∈ acc, goIsSpace c = false) →
      ∀ w ∈ fieldsAux l acc, w ≠ [] ∧ ∀ c ∈ w, goIsSpace c = false := by
  induction l with
  | nil =>
    intro acc hacc w hw
    cases acc with
    | nil => simp [fieldsAux] at hw
    | cons a as =>
      simp [fieldsAux] at hw
      subst hw
      constructor
      · simp
      · intro c hc
        refine hacc c ?_
        simp at hc ⊢
        tauto
  | cons c cs ih =>
    intro acc hacc w hw
    by_cases hc : goIsSpace c = true
    · cases acc with
      | nil =>
        simp only [fieldsAux, hc, if_true] at hw
        exact ih [] (by simp) w hw
      | cons a as =>
        simp only [fieldsAux, hc, if_true] at hw
        rcases List.mem_cons.mp hw with h | h
        · subst h
          refine ⟨by simp, ?_⟩
          intro d hd
          refine hacc d ?_
          simp at hd ⊢
          tauto
        · exact ih [] (by simp) w h
    · have hc' : goIsSpace c = false := by simpa using hc
      simp only [fieldsAux, hc', Bool.false_eq_true, if_false] at hw
      refine ih (c :: acc) ?_ w hw
      intro d hd
      rcases List.mem_cons.mp hd with h | h
      · subst h; exact hc'
      · exact hacc d h

theorem fieldsList_sound (l : List Char) :
    ∀ w ∈ fieldsList l, w ≠ [] ∧ ∀ c ∈ w, goIsSpace c = false :=
  fieldsAux_sound l [] (by simp)

theorem fieldsList_joinSpace (ws : List (List Char))
    (h : ∀ w ∈ ws, w ≠ [] ∧ ∀ c ∈ w, goIsSpace c = false) :
    fieldsList (joinSpace ws) = ws := by
  induction ws with
  | nil => simp [joinSpace, fieldsList, fieldsAux]
  | cons w ws ih =>
    cases ws with
    | nil =>
      have := h w (List.mem_cons_self ..)
      simpa [joinSpace] using fieldsList_word w this.1 this.2
    | cons w' ws' =>
      have hw := h w (List.mem_cons_self ..)
      have hrest : ∀ v ∈ w' :: ws', v ≠ [] ∧ ∀ c ∈ v, goIsSpace c = false :=
        fun v hv => h v (List.mem_cons_of_mem _ hv)
      show fieldsList (w ++ ' ' :: joinSpace (w' :: ws')) = _
      rw [fieldsList_word_space w _ hw.1 hw.2, ih hrest]

theorem baseDigits_foldl (b : Nat) (hb : 2 ≤ b) :
    ∀ fuel n, n < fuel → (baseDigits b fuel n).foldl (fun a d => a * b + d) 0 = n := by
  intro fuel
  induction fuel with
  | zero => intro n hn; omega
  | succ fuel ih =>
    intro n hn
    by_cases h : n < b
    · simp [baseDigits, h]
    · have hb0 : 0 < b := by omega
      have hn0 : 0 < n := by omega
      have hdiv : n / b < n := Nat.div_lt_self hn0 (by omega)
      have : n / b < fuel := by omega
      simp only [baseDigits, h, if_false, List.foldl_append, ih (n / b) this, List.foldl_cons,
        List.foldl_nil]
      have h1 := Nat.div_add_mod n b
      have h2 : n / b * b = b * (n / b) := Nat.mul_comm _ _
      omega

theorem baseDigits_ne_nil (b : Nat) : ∀ fuel n, 0 < fuel → baseDigits b fuel n ≠ [] := by
  intro fuel n hf
  cases fuel with
  | zero => omega
  | succ fuel =>
    by_cases h : n < b <;> simp [baseDigits, h]

theorem baseDigits_mem_lt (b : Nat) (hb : 2 ≤ b) :
    ∀ fuel n d, n < fuel → d ∈ baseDigits b fuel n → d < b := by
  intro fuel
  induction fuel with
  | zero => intro n d hn; omega
  | succ fuel ih =>
    intro n d hn hd
    by_cases h : n < b
    · simp [baseDigits, h] at hd
      omega
    · have hdiv : n / b < n := Nat.div_lt_self (by omega) (by omega)
      simp only [baseDigits, h, if_false, List.mem_append, List.mem_singleton] at hd
      rcases hd with hd | hd
      · exact ih (n / b) d (by omega) hd
      · subst hd; exact Nat.mod_lt _ (by omega)

theorem baseDigits_head_ne_zero (b : Nat) (hb : 2 ≤ b) :
    ∀ fuel n d, n < fuel → n ≠ 0 → (baseDigits b fuel n).head? = some d → d ≠ 0 := by
  intro fuel
  induction fuel with
  | zero => intro n d hn; omega
  | succ fuel ih =>
    intro n d hn hn0 hd
    by_cases h : n < b
    · simp [baseDigits, h] at hd
      omega
    · have hdivlt : n / b < n := Nat.div_lt_self (by omega) (by omega)
      have hne : baseDigits b fuel (n / b) ≠ [] := by
        refine baseDigits_ne_nil b fuel (n / b) ?_
        omega
      obtain ⟨x, xs, hx⟩ := List.exists_cons_of_ne_nil hne
      have hform : (baseDigits b (fuel + 1) n).head? = some x := by
        simp [baseDigits, h, hx]
      have hdx : x = d := by
        have := hform.symm.trans hd
        simpa using this
      have hdiv0 : n / b ≠ 0 := by
        have hbn : b ≤ n := by omega
        have := (Nat.one_le_div_iff (by omega : 0 < b)).mpr hbn
        omega
      exact hdx ▸ ih (n / b) x (by omega) hdiv0 (by simp [hx])

theorem baseDigits_length_le (b : Nat) (hb : 2 ≤ b) :
    ∀ fuel n k, n < fuel → n < b ^ k → 1 ≤ k → (baseDigits b fuel n).length ≤ k := by
  intro fuel
  induction fuel with
  | zero => intro n k hn; omega
  | succ fuel ih
  =>
    intro n k hn hnk hk
    by_cases h : n < b
    · simp [baseDigits, h]; omega
    · have hk2 : 2 ≤ k := by
        by_contra hlt
        have hk1 : k = 1 := by omega
        subst hk1
        rw [pow_one] at hnk
        omega
      have hdivlt : n / b < n := Nat.div_lt_self (by omega) (by omega)
      have hdivpow : n / b < b ^ (k - 1) := by
        have hbpos : 0 < b := by omega
        rw [Nat.div_lt_iff_lt_mul hbpos]
        have : b ^ (k - 1) * b = b ^ k := by
          rw [← Nat.pow_succ]
          congr 1
          omega
        omega
      have := ih (n / b) (k - 1) (by omega) hdivpow (by omega)
      simp only [baseDigits, h, if_false, List.length_append, List.length_cons, List.length_nil]
      omega

theorem digitChar_isDigit : ∀ d, d < 10 → (Nat.digitChar d).isDigit = true := by decide

theorem digitChar_toNat : ∀ d, d < 10 → (Nat.digitChar d).toNat - 48 = d := by decide

theorem digitChar_not_space : ∀ d, d < 16 → goIsSpace (Nat.digitChar d) = false := by decide

theorem digitChar_ne_dot_colon : ∀ d, d < 16 → Nat.digitChar d ≠ '.' ∧ Nat.digitChar d ≠ ':' := by
  decide

theorem digitChar_ne_zero_char : ∀ d, d < 10 → d ≠ 0 → Nat.digitChar d ≠ '0' := by decide

theorem digitChar_hexVal : ∀ d, d < 16 → hexVal (Nat.digitChar d) = some d := by decide

theorem digitsVal_map_digitChar_aux (l : List Nat) :
    ∀ a, (∀ d ∈ l, d < 10) →
      List.foldl (fun acc c => acc * 10 + (c.toNat - 48)) a (l.map Nat.digitChar) =
        List.foldl (fun acc d => acc * 10 + d) a l := by
  induction l with
  | nil => intro a _; simp
  | cons d ds ih =>
    intro a h
    have hd : d < 10 := h d (List.mem_cons_self ..)
    simp only [List.map_cons, List.foldl_cons, digitChar_toNat d hd]
    exact ih _ (fun x hx => h x (List.mem_cons_of_mem _ hx))

theorem digitsVal_map_digitChar (l : List Nat) (h : ∀ d ∈ l, d < 10) :
    digitsVal (l.map Nat.digitChar) = l.foldl (fun a d => a * 10 + d) 0 :=
  digitsVal_map_digitChar_aux l 0 h

theorem decChars_val (n : Nat) : digitsVal (decChars n) = n := by
  unfold decChars
  rw [digitsVal_map_digitChar _ (fun d hd => baseDigits_mem_lt 10 (by omega) _ n d (by omega) hd)]
  exact baseDigits_foldl 10 (by omega) (n + 1) n (by omega)

theorem decChars_ne_nil (n : Nat) : decChars n ≠ [] := by
  unfold decChars
  simp only [ne_eq, List.map_eq_nil_iff]
  exact baseDigits_ne_nil 10 (n + 1) n (by omega)

theorem decChars_all_digits (n : Nat) : ∀ c ∈ decChars n, c.isDigit = true := by
  intro c hc
  obtain ⟨d, hd, hdc⟩ := List.mem_map.mp hc
  subst hdc
  exact digitChar_isDigit d (baseDigits_mem_lt 10 (by omega) _ n d (by omega) hd)

theorem decChars_not_space (n : Nat) : ∀ c ∈ decChars n, goIsSpace c = false := by
  intro c hc
  obtain ⟨d, hd, hdc⟩ := List.mem_map.mp hc
  subst hdc
  exact digitChar_not_space d (by
    have := baseDigits_mem_lt 10 (by omega) _ n d (by omega) hd
    omega)

theorem decChars_no_dot_colon (n : Nat) : ∀ c ∈ decChars n, c ≠ '.' ∧ c ≠ ':' := by
  intro c hc
  obtain ⟨d, hd, hdc⟩ := List.mem_map.mp hc
  subst hdc
  exact digitChar_ne_dot_colon d (by
    have := baseDigits_mem_lt 10 (by omega) _ n d (by omega) hd
    omega)

theorem decChars_length_le (n k : Nat) (hk : 1 ≤ k) (hn : n < 10 ^ k) :
    (decChars n).length ≤ k := by
  unfold decChars
  rw [List.length_map]
  exact baseDigits_length_le 10 (by omega) (n + 1) n k (by omega) hn hk

theorem decChars_head_ne_zero (n : Nat) (hn : n ≠ 0) :
    ∀ c, (decChars n).head? = some c → c ≠ '0' := by
  intro c hc
  unfold decChars at hc
  rw [List.head?_map] at hc
  obtain ⟨d, hd, hdc⟩ := Option.map_eq_some'.mp hc
  subst hdc
  have hlt : d < 10 := by
    have hne := baseDigits_ne_nil 10 (n + 1) n (by omega)
    obtain ⟨x, xs, hx⟩ := List.exists_cons_of_ne_nil hne
    refine baseDigits_mem_lt 10 (by omega) (n + 1) n d (by omega) ?_
    rw [hx] at hd ⊢
    simp at hd
    simp [hd]
  exact digitChar_ne_zero_char d hlt
    (baseDigits_head_ne_zero 10 (by omega) (n + 1) n d (by omega) hn hd)

theorem decChars_zero : decChars 0 = ['0'] := by decide

theorem data_mk (l : List Char) : (⟨l⟩ : String).data = l := rfl

theorem parseUint16_decChars (n : Nat) (hn : n ≤ 65535) :
    parseUint16 ⟨decChars n⟩ = some n := by
  unfold parseUint16
  have htake : (decChars n).takeWhile Char.isDigit = decChars n := by
    rw [List.takeWhile_eq_self_iff]
    exact decChars_all_digits n
  simp only [data_mk, htake]
  cases hx : decChars n with
  | nil => exact absurd hx (decChars_ne_nil n)
  | cons y ys =>
    have hval : digitsVal (y :: ys) = n := hx ▸ decChars_val n
    simp [hval, hn]

theorem hexValAux_map_digitChar (l : List Nat) :
    ∀ a, (∀ d ∈ l, d < 16) →
      hexValAux (l.map Nat.digitChar) a = some (List.foldl (fun acc d => acc * 16 + d) a l) := by
  induction l with
  | nil => intro a _; simp [hexValAux]
  | cons d ds ih =>
    intro a h
    have hd : d < 16 := h d (List.mem_cons_self ..)
    simp only [List.map_cons, hexValAux, digitChar_hexVal d hd]
    exact ih _ (fun x hx => h x (List.mem_cons_of_mem _ hx))

theorem hexChars_val (n : Nat) : hexValAux (hexChars n) 0 = some n := by
  unfold hexChars
  rw [hexValAux_map_digitChar _ 0 (fun d hd => baseDigits_mem_lt 16 (by omega) _ n d (by omega) hd)]
  rw [baseDigits_foldl 16 (by omega) (n + 1) n (by omega)]

theorem hexChars_ne_nil (n : Nat) : hexChars n ≠ [] := by
  unfold hexChars
  simp only [ne_eq, List.map_eq_nil_iff]
  exact baseDigits_ne_nil 16 (n + 1) n (by omega)

theorem hexChars_no_dot_colon (n : Nat) : ∀ c ∈ hexChars n, c ≠ '.' ∧ c ≠ ':' := by
  intro c hc
  obtain ⟨d, hd, hdc⟩ := List.mem_map.mp hc
  subst hdc
  exact digitChar_ne_dot_colon d (baseDigits_mem_lt 16 (by omega) _ n d (by omega) hd)

theorem hexChars_length_le (n k : Nat) (hk : 1 ≤ k) (hn : n < 16 ^ k) :
    (hexChars n).length ≤ k := by
  unfold hexChars
  rw [List.length_map]
  exact baseDigits_length_le 16 (by omega) (n + 1) n k (by omega) hn hk

theorem find?_append_none {p : Char → Bool} (l r : List Char)
    (h : ∀ c ∈ l, p c = false) : List.find? p (l ++ r) = List.find? p r := by
  induction l with
  | nil => simp
  | cons c cs ih =>
    have hc : p c = false := h c (List.mem_cons_self ..)
    simp only [List.cons_append, List.find?_cons, hc]
    exact ih (fun d hd => h d (List.mem_cons_of_mem _ hd))

theorem intercalate_cons₂ (x : Char) (w : List Char) (ws : List (List Char)) (h : ws ≠ []) :
    [x].intercalate (w :: ws) = w ++ x :: [x].intercalate ws := by
  obtain ⟨w', ws', rfl⟩ := List.exists_cons_of_ne_nil h
  simp [List.intercalate, List.intersperse]

theorem parseOctet_decChars (a : Fin 256) : parseOctet (decChars a.val) = some a := by
  unfold parseOctet
  have h1 : decChars a.val ≠ [] := decChars_ne_nil a.val
  have h2 : (decChars a.val).all Char.isDigit = true := by
    rw [List.all_eq_true]
    exact decChars_all_digits a.val
  have h3 : ¬ 3 < (decChars a.val).length := by
    have := decChars_length_le a.val 3 (by omega) (by have := a.isLt; omega)
    omega
  have h4 : ¬ ((decChars a.val).head? = some '0' ∧ decChars a.val ≠ ['0']) := by
    rcases Nat.eq_zero_or_pos a.val with hz | hp
    · rw [hz, decChars_zero]
      simp
    · rintro ⟨hhead, _⟩
      exact decChars_head_ne_zero a.val (by omega) '0' hhead rfl
  simp only [h1, if_false, h2, not_true, if_false, h3, if_false, h4, if_false]
  have h5 : digitsVal (decChars a.val) = a.val := decChars_val a.val
  simp [h5, a.isLt]

theorem parseGroup_hexChars (g : Fin 65536) : parseGroup (hexChars g.val) = some g := by
  unfold parseGroup
  have h1 : hexChars g.val ≠ [] := hexChars_ne_nil g.val
  have h2 : ¬ 4 < (hexChars g.val).length := by
    have := hexChars_length_le g.val 4 (by omega) (by have := g.isLt; omega)
    omega
  simp only [h1, if_false, h2, if_false, hexChars_val g.val]
  simp [g.isLt]

theorem ipString_v4_split (a b c d : Fin 256) :
    (ipString (.v4 a b c d)).data.splitOn '.' =
      [decChars a.val, decChars b.val, decChars c.val, decChars d.val] := by
  show ([('.' : Char)].intercalate
      [decChars a.val, decChars b.val, decChars c.val, decChars d.val]).splitOn '.' = _
  refine List.splitOn_intercalate _ '.' ?_ (by simp)
  intro l hl
  simp only [List.mem_cons, List.not_mem_nil, or_false] at hl
  rcases hl with rfl | rfl | rfl | rfl <;>
    exact fun hmem => (decChars_no_dot_colon _ '.' hmem).1 rfl

theorem ipString_v6_split (g1 g2 g3 g4 g5 g6 g7 g8 : Fin 65536) :
    (ipString (.v6 g1 g2 g3 g4 g5 g6 g7 g8)).data.splitOn ':' =
      [hexChars g1.val, hexChars g2.val, hexChars g3.val, hexChars g4.val,
        hexChars g5.val, hexChars g6.val, hexChars g7.val, hexChars g8.val] := by
  show ([(':' : Char)].intercalate _).splitOn ':' = _
  refine List.splitOn_intercalate _ ':' ?_ (by simp)
  intro l hl
  simp only [List.mem_cons, List.not_mem_nil, or_false] at hl
  rcases hl with rfl | rfl | rfl | rfl | rfl | rfl | rfl | rfl <;>
    exact fun hmem => (hexChars_no_dot_colon _ ':' hmem).2 rfl

theorem ipString_v4_find? (a b c d : Fin 256) :
    (ipString (.v4 a b c d)).data.find? dotColon = some '.' := by
  show ([('.' : Char)].intercalate
      [decChars a.val, decChars b.val, decChars c.val, decChars d.val]).find? dotColon = _
  rw [intercalate_cons₂ _ _ _ (by simp)]
  rw [find?_append_none]
  · simp [List.find?_cons, dotColon]
  · intro e he
    have := decChars_no_dot_colon a.val e he
    simp [dotColon, this.1, this.2]

theorem ipString_v6_find? (g1 g2 g3 g4 g5 g6 g7 g8 : Fin 65536) :
    (ipString (.v6 g1 g2 g3 g4 g5 g6 g7 g8)).data.find? dotColon = some ':' := by
  show ([(':' : Char)].intercalate _).find? dotColon = _
  rw [intercalate_cons₂ _ _ _ (by simp)]
  rw [find?_append_none]
  · simp [List.find?_cons, dotColon]
  · intro e he
    have := hexChars_no_dot_colon g1.val e he
    simp [dotColon, this.1, this.2]

theorem parseAddr_ipString (ip : IPAddr) : parseAddr (ipString ip) = some ip := by
  cases ip with
  | v4 a b c d =>
    unfold parseAddr
    rw [ipString_v4_find?]
    simp only [if_true, reduceIte]
    unfold parseV4
    rw [ipString_v4_split]
    simp [parseOctet_decChars]
  | v6 g1 g2 g3 g4 g5 g6 g7 g8 =>
    unfold parseAddr
    rw [ipString_v6_find?]
    have : (':' : Char) ≠ '.' := by decide
    simp only [this, if_false, reduceIte]
    unfold parseV6
    rw [ipString_v6_split]
    simp [parseGroup_hexChars]

theorem foldl_append_map {α β : Type} (f : α → β) (l : List α) :
    ∀ acc : List β, l.foldl (fun r x => r ++ [f x]) acc = acc ++ l.map f := by
  induction l with
  | nil => intro acc; simp
  | cons x xs ih => intro acc; simp [ih]

theorem convertToSpecificTypes_eq_map (records : List Record) :
    convertToSpecificTypes records = records.map retypeOne :=
  (foldl_append_map retypeOne records []).trans (by simp)

theorem retypeOne_RR_ttl (record : Record) : (retypeOne record).RR.ttl = record.RR.ttl := by
  simp only [retypeOne]
  split_ifs <;> cases hp : parseAddr record.RR.data <;> simp [Record.RR]

theorem parseUint16_le (s : String) (n : Nat) (h : parseUint16 s = some n) : n ≤ 65535 := by
  unfold parseUint16 at h
  cases hx : s.data.takeWhile Char.isDigit with
  | nil => rw [hx] at h; exact absurd h (by simp)
  | cons c cs =>
    rw [hx] at h
    by_cases hle : digitsVal (c :: cs) ≤ 65535
    · simp only [hle, if_true, Option.some.injEq] at h
      omega
    · simp [hle] at h

theorem mxParse_pref_le (value : String) : (mxParse value).1 ≤ 65535 := by
  unfold mxParse
  cases hf : fieldsS value with
  | nil => simp
  | cons p0 rest =>
    cases rest with
    | nil => simp
    | cons p1 rest' =>
      cases hp : parseUint16 p0 with
      | none => simp [hp]
      | some pref =>
        simp only [hp]
        exact parseUint16_le p0 pref hp

theorem upper_A : upper "A" = "A" := by decide

theorem upper_AAAA : upper "AAAA" = "AAAA" := by decide

theorem upper_TXT : upper "TXT" = "TXT" := by decide

theorem upper_CNAME : upper "CNAME" = "CNAME" := by decide

theorem upper_MX : upper "MX" = "MX" := by decide

theorem upper_NS : upper "NS" = "NS" := by decide

theorem normWord_fieldsS_ne_nil (t : String) (h : joinSpaceS (fieldsS t) = t) (ht : t ≠ "") :
    fieldsS t ≠ [] := by
  intro hnil
  apply ht
  rw [← h, hnil]
  rfl

theorem fieldsS_mxData (p : Nat) (t : String) :
    fieldsS ⟨decChars p ++ ' ' :: t.data⟩ = (⟨decChars p⟩ : String) :: fieldsS t := by
  unfold fieldsS
  rw [data_mk, fieldsList_word_space _ _ (decChars_ne_nil p) (decChars_not_space p)]
  simp

theorem mxParse_mxData (p : Nat) (hp : p ≤ 65535) (t : String)
    (hnorm : joinSpaceS (fieldsS t) = t) (hne : t ≠ "") :
    mxParse ⟨decChars p ++ ' ' :: t.data⟩ = (p, t) := by
  unfold mxParse
  rw [fieldsS_mxData]
  obtain ⟨q, qs, hq⟩ := List.exists_cons_of_ne_nil (normWord_fieldsS_ne_nil t hnorm hne)
  rw [hq]
  simp only [parseUint16_decChars p hp]
  rw [← hq, hnorm]

theorem convertAPI_mx (r : RawRecord) (ht : upper r.type = "MX") :
    convertAPIRecordToLibDNS r =
      .ok (.mx r.name (r.ttl * 1000000000) (mxParse r.value).1 (mxParse r.value).2) := by
  simp [convertAPIRecordToLibDNS, ht]

theorem retype_mx (record : Record) (ht : upper record.RR.type = "MX") :
    retypeOne record =
      .mx record.RR.name record.RR.ttl (mxParse record.RR.data).1 (mxParse record.RR.data).2 := by
  simp [retypeOne, ht]

/-- C1 as stated fails: `fmt.Sscanf "%d"` scans a digit prefix of the first
token, so the value `"1x mail.example.com"` — whose first token does not
parse as a uint16 — still takes the preference branch with preference 1. -/
theorem c1_counterexample : ¬ C1Claim := by
  intro h
  have h1 := h.1 ⟨"m", "MX", "1x mail.example.com", 60⟩ (by decide)
  exact absurd h1 (by decide)

/-- C1 amended: in both decode and re-type, an MX value with at least two
whitespace fields whose first field has a scannable digit prefix of value at
most 65535 yields that value as preference and the space-rejoined remaining
fields as target; otherwise preference 10 and the whole value as target
(`mxParse` is exactly this computation). -/
theorem c1_corrected :
    (∀ r : RawRecord, upper r.type = "MX" →
      convertAPIRecordToLibDNS r =
        .ok (.mx r.name (r.ttl * 1000000000) (mxParse r.value).1 (mxParse r.value).2)) ∧
    (∀ record : Record, upper record.RR.type = "MX" →
      retypeOne record =
        .mx record.RR.name record.RR.ttl
          (mxParse record.RR.data).1 (mxParse record.RR.data).2) :=
  ⟨convertAPI_mx, retype_mx⟩

/-- Witness for C1: the amended theorem evaluated at a concrete MX record. -/
theorem c1_witness :
    convertAPIRecordToLibDNS ⟨"mail", "MX", "10 mail.example.com", 300⟩ =
      .ok (.mx "mail" 300000000000 10 "mail.example.com") :=
  (c1_corrected.1 ⟨"mail", "MX", "10 mail.example.com", 300⟩ (by decide)).trans (by decide)

theorem semEq_refl (r : RRrec) : semEq r r := ⟨rfl, rfl, rfl, rfl⟩

/-- C4 as stated fails: `MX{preference 7, target ""}` projects to data
`"7 "`, which re-types to `MX{preference 10, target "7 "}` — a different
preference/target pair. -/
theorem c4_counterexample : ¬ C4Claim := by
  intro h
  obtain ⟨-, -, -, hv⟩ := h (.mx "m" 0 7 "")
  exact absurd hv (by decide)

/-- C4 amended: Generic-Typed-Generic round-trips preserve name, type (up to
case), ttl and semantic value for every variant whose MX target is nonempty
and whitespace-normalized and whose generic A/AAAA data matches the family of
its tag (`roundtripSafe`). -/
theorem c4_corrected :
    ∀ record : Record, roundtripSafe record → semEq (retypeOne record).RR record.RR := by
  intro record hsafe
  cases record with
  | address name ttl ip =>
    have hr : retypeOne (.address name ttl ip) = .address name ttl ip := by
      cases hip : ip.isV4 <;>
        simp [retypeOne, Record.RR, hip, upper_A, upper_AAAA, parseAddr_ipString]
    rw [hr]
    exact semEq_refl _
  | txt name ttl text =>
    have hr : retypeOne (.txt name ttl text) = .txt name ttl text := by
      simp [retypeOne, Record.RR, upper_TXT]
    rw [hr]
    exact semEq_refl _
  | cname name ttl target =>
    have hr : retypeOne (.cname name ttl target) = .cname name ttl target := by
      simp [retypeOne, Record.RR, upper_CNAME]
    rw [hr]
    exact semEq_refl _
  | ns name ttl target =>
    have hr : retypeOne (.ns name ttl target) = .ns name ttl target := by
      simp [retypeOne, Record.RR, upper_NS]
    rw [hr]
    exact semEq_refl _
  | mx name ttl preference target =>
    obtain ⟨hpref, hnorm, hne⟩ := hsafe
    have hr : retypeOne (.mx name ttl preference target) = .mx name ttl preference target := by
      have hmx := mxParse_mxData preference (by omega) target hnorm hne
      simp [retypeOne, Record.RR, upper_MX, hmx]
    rw [hr]
    exact semEq_refl _
  | rr r =>
    obtain ⟨hmxsafe, hasafe, haaaasafe⟩ := hsafe
    by_cases ha : upper r.type = "A" ∨ upper r.type = "AAAA"
    · cases hp : parseAddr r.data with
      | none =>
        have hr : retypeOne (.rr r) = .rr r := by
          simp [retypeOne, Record.RR, ha, hp]
        rw [hr]
        exact semEq_refl _
      | some ip =>
        have hr : retypeOne (.rr r) = .address r.name r.ttl ip := by
          simp [retypeOne, Record.RR, ha, hp]
        rw [hr]
        rcases ha with ha | ha
        · have hv4 : ip.isV4 = true := hasafe ha ip hp
          refine ⟨rfl, ?_, rfl, ?_⟩
          · show upper (if ip.isV4 then "A" else "AAAA") = upper r.type
            rw [hv4]
            simp [upper_A, ha]
          · show semVal ⟨r.name, if ip.isV4 then "A" else "AAAA", ipString ip, r.ttl⟩ = semVal r
            rw [hv4]
            unfold semVal
            simp [upper_A, ha, parseAddr_ipString, hp]
        · have hv6 : ip.isV4 = false := haaaasafe ha ip hp
          refine ⟨rfl, ?_, rfl, ?_⟩
          · show upper (if ip.isV4 then "A" else "AAAA") = upper r.type
            rw [hv6]
            simp [upper_AAAA, ha]
          · show semVal ⟨r.name, if ip.isV4 then "A" else "AAAA", ipString ip, r.ttl⟩ = semVal r
            rw [hv6]
            unfold semVal
            simp [upper_AAAA, ha, parseAddr_ipString, hp]
    · by_cases htxt : upper r.type = "TXT"
      · have hr : retypeOne (.rr r) = .txt r.name r.ttl r.data := by
          simp [retypeOne, Record.RR, ha, htxt]
        rw [hr]
        refine ⟨rfl, ?_, rfl, ?_⟩
        · show upper "TXT" = upper r.type
          rw [upper_TXT, htxt]
        · show semVal ⟨r.name, "TXT", r.data, r.ttl⟩ = semVal r
          unfold semVal
          rw [upper_TXT, htxt]
      · by_cases hcn : upper r.type = "CNAME"
        · have hr : retypeOne (.rr r) = .cname r.name r.ttl r.data := by
            simp [retypeOne, Record.RR, ha, htxt, hcn]
          rw [hr]
          refine ⟨rfl, ?_, rfl, ?_⟩
          · show upper "CNAME" = upper r.type
            rw [upper_CNAME, hcn]
          · show semVal ⟨r.name, "CNAME", r.data, r.ttl⟩ = semVal r
            unfold semVal
            rw [upper_CNAME, hcn]
        · by_cases hmx : upper r.type = "MX"
          · have hr : retypeOne (.rr r) = .mx r.name r.ttl (mxParse r.data).1 (mxParse r.data).2 := by
              simp [retypeOne, Record.RR, ha, htxt, hcn, hmx]
            rw [hr]
            obtain ⟨hnorm, hne⟩ := hmxsafe hmx
            have hval := mxParse_mxData (mxParse r.data).1 (mxParse_pref_le r.data)
              (mxParse r.data).2 hnorm hne
            refine ⟨rfl, ?_, rfl, ?_⟩
            · show upper "MX" = upper r.type
              rw [upper_MX, hmx]
            · show semVal ⟨r.name, "MX", _, r.ttl⟩ = semVal r
              unfold semVal
              rw [upper_MX, hmx]
              simp only [ha, if_neg ha]
              simp [hval]
          · by_cases hns : upper r.type = "NS"
            · have hr : retypeOne (.rr r) = .ns r.name r.ttl r.data := by
                simp [retypeOne, Record.RR, ha, htxt, hcn, hmx, hns]
              rw [hr]
              refine ⟨rfl, ?_, rfl, ?_⟩
              · show upper "NS" = upper r.type
                rw [upper_NS, hns]
              · show semVal ⟨r.name, "NS", r.data, r.ttl⟩ = semVal r
                unfold semVal
                rw [upper_NS, hns]
            · have hr : retypeOne (.rr r) = .rr r := by
                simp [retypeOne, Record.RR, ha, htxt, hcn, hmx, hns]
              rw [hr]
              exact semEq_refl _

/-- Witness for C4: the amended round-trip at a concrete well-formed MX
record. -/
theorem c4_witness :
    semEq (retypeOne (.mx "m" 0 7 "mail.example.com")).RR (Record.RR (.mx "m" 0 7 "mail.example.com")) :=
  c4_corrected (.mx "m" 0 7 "mail.example.com") ⟨by decide, by decide, by decide⟩

theorem appendEncode_eq (records : List Record) :
    ∀ acc, records.foldl (fun acc record =>
      let rr := record.RR
      let ttl := if rr.ttl < defaultMinTTL then defaultMinTTL else rr.ttl
      acc ++ [(⟨rr.name, rr.type, rr.data, secondsOf ttl⟩ : WireRecord)]) acc =
    acc ++ records.map wireFloor := by
  induction records with
  | nil => intro acc; simp
  | cons r rs ih =>
    intro acc
    simp only [List.foldl_cons, List.map_cons, ih]
    have hper : secondsOf (if r.RR.ttl < defaultMinTTL then defaultMinTTL else r.RR.ttl) =
        if defaultMinTTL ≤ r.RR.ttl then secondsOf r.RR.ttl else 120 := by
      by_cases h : r.RR.ttl < defaultMinTTL
      · rw [if_pos h, if_neg (by omega)]
        decide
      · rw [if_neg h, if_pos (by omega)]
    simp [wireFloor, hper]

theorem deleteEncode_eq (records : List Record) :
    ∀ acc, records.foldl (fun acc record =>
      let rr := record.RR
      acc ++ [(⟨rr.name, rr.type, rr.data, secondsOf rr.ttl⟩ : WireRecord)]) acc =
    acc ++ records.map wirePlain := by
  induction records with
  | nil => intro acc; simp
  | cons r rs ih =>
    intro acc
    simp only [List.foldl_cons, List.map_cons, ih]
    simp [wirePlain]

theorem AppendRecords_shape (endpoint zone : String) (records : List Record) (status : Nat)
    (hrec : records ≠ []) (hend : endpoint ≠ "") :
    AppendRecords endpoint zone records status =
      ⟨some ⟨"POST", endpoint ++ ("/zones/" ++ zone ++ "/records"), some (records.map wireFloor)⟩,
        if status ≠ 201 ∧ status ≠ 200 then .error "API error during addition"
        else .ok (convertToSpecificTypes records)⟩ := by
  unfold AppendRecords makeRequest
  rw [if_neg hrec]
  simp [hend, appendEncode_eq records []]

theorem SetRecords_shape (endpoint zone : String) (records : List Record) (status : Nat)
    (hrec : records ≠ []) (hend : endpoint ≠ "") :
    SetRecords endpoint zone records status =
      ⟨some ⟨"PUT", endpoint ++ ("/zones/" ++ zone ++ "/records"), some (records.map wireFloor)⟩,
        if status ≠ 200 then .error "API error during update"
        else .ok (convertToSpecificTypes records)⟩ := by
  unfold SetRecords makeRequest
  rw [if_neg hrec]
  simp [hend, appendEncode_eq records []]

theorem DeleteRecords_shape (endpoint zone : String) (records : List Record) (status : Nat)
    (hrec : records ≠ []) (hend : endpoint ≠ "") :
    DeleteRecords endpoint zone records status =
      ⟨some ⟨"DELETE", endpoint ++ ("/zones/" ++ zone ++ "/records"), some (records.map wirePlain)⟩,
        if status = 200 ∨ status = 204 then .ok (convertToSpecificTypes records)
        else .ok []⟩ := by
  unfold DeleteRecords makeRequest
  rw [if_neg hrec]
  simp [hend, deleteEncode_eq records []]

theorem GetRecords_shape (endpoint zone : String) (status : Nat) (body : Json)
    (hend : endpoint ≠ "") :
    GetRecords endpoint zone status body =
      ⟨some ⟨"GET", endpoint ++ ("/zones/" ++ zone ++ "/records"), none⟩,
        if status ≠ 200 then .error "API error" else decodeGetBody body⟩ := by
  unfold GetRecords makeRequest
  simp [hend]

theorem ttl_map_retype (records : List Record) :
    (convertToSpecificTypes records).map (fun record => record.RR.ttl) =
      records.map (fun record => record.RR.ttl) := by
  rw [convertToSpecificTypes_eq_map, List.map_map]
  exact List.map_congr_left (fun r _ => retypeOne_RR_ttl r)

/-- C2: for append and set with a non-empty batch, the wire ttl of every
record is its TTL in whole seconds when at least 120 s and 120 otherwise,
while the records returned on success keep the original TTL. -/
theorem c2_ttl_floor :
    ∀ (endpoint zone : String) (records : List Record) (status : Nat),
      records ≠ [] → endpoint ≠ "" →
      ((AppendRecords endpoint zone records status).call = some
          ⟨"POST", endpoint ++ ("/zones/" ++ zone ++ "/records"), some (records.map wireFloor)⟩ ∧
        (SetRecords endpoint zone records status).call = some
          ⟨"PUT", endpoint ++ ("/zones/" ++ zone ++ "/records"), some (records.map wireFloor)⟩) ∧
      ((status = 200 ∨ status = 201) →
        (AppendRecords endpoint zone records status).result =
          .ok (convertToSpecificTypes records)) ∧
      (status = 200 →
        (SetRecords endpoint zone records status).result =
          .ok (convertToSpecificTypes records)) ∧
      (convertToSpecificTypes records).map (fun record => record.RR.ttl) =
        records.map (fun record => record.RR.ttl) := by
  intro endpoint zone records status hrec hend
  rw [AppendRecords_shape endpoint zone records status hrec hend,
    SetRecords_shape endpoint zone records status hrec hend]
  refine ⟨⟨rfl, rfl⟩, ?_, ?_, ttl_map_retype records⟩
  · rintro (h | h) <;> simp [h]
  · intro h
    simp [h]

/-- Witness for C2: appending one TXT record with ttl 0 encodes wire ttl 120
while the returned records are the re-typed input. -/
theorem c2_witness :
    (AppendRecords "E" "z" [.txt "n" 0 "v"] 200).call =
      some ⟨"POST", "E/zones/z/records", some [⟨"n", "TXT", "v", 120⟩]⟩ ∧
    (AppendRecords "E" "z" [.txt "n" 0 "v"] 200).result =
      .ok (convertToSpecificTypes [.txt "n" 0 "v"]) := by
  have h := c2_ttl_floor "E" "z" [.txt "n" 0 "v"] 200 (by decide) (by decide)
  exact ⟨h.1.1.trans (by decide), h.2.1 (Or.inl rfl)⟩

/-- C3: for delete with a non-empty batch, status 200/204 returns the
re-typed input with no error, every other status returns an empty list with
no error, and the wire ttl carries no floor. -/
theorem c3_delete_best_effort :
    ∀ (endpoint zone : String) (records : List Record) (status : Nat),
      records ≠ [] → endpoint ≠ "" →
      ((status = 200 ∨ status = 204) →
        (DeleteRecords endpoint zone records status).result =
          .ok (convertToSpecificTypes records)) ∧
      (¬(status = 200 ∨ status = 204) →
        (DeleteRecords endpoint zone records status).result = .ok []) ∧
      (DeleteRecords endpoint zone records status).call = some
        ⟨"DELETE", endpoint ++ ("/zones/" ++ zone ++ "/records"),
          some (records.map wirePlain)⟩ := by
  intro endpoint zone records status hrec hend
  rw [DeleteRecords_shape endpoint zone records status hrec hend]
  refine ⟨?_, ?_, rfl⟩
  · intro h
    simp [h]
  · intro h
    simp [h]

/-- Witness for C3: a DELETE answered with status 500 yields an empty
success result, with an unfloored wire ttl. -/
theorem c3_witness :
    (DeleteRecords "E" "z" [.txt "n" 0 "v"] 500).result = .ok [] ∧
    (DeleteRecords "E" "z" [.txt "n" 0 "v"] 500).call =
      some ⟨"DELETE", "E/zones/z/records", some [⟨"n", "TXT", "v", 0⟩]⟩ := by
  have h := c3_delete_best_effort "E" "z" [.txt "n" 0 "v"] 500 (by decide) (by decide)
  exact ⟨h.2.1 (by decide), h.2.2.trans (by decide)⟩

/-- C8: the three write operations with an empty batch return an empty list,
no error, and make no HTTP call. -/
theorem c8_empty_batch :
    ∀ (endpoint zone : String) (status : Nat),
      AppendRecords endpoint zone [] status = ⟨none, .ok []⟩ ∧
      SetRecords endpoint zone [] status = ⟨none, .ok []⟩ ∧
      DeleteRecords endpoint zone [] status = ⟨none, .ok []⟩ :=
  fun _ _ _ => ⟨rfl, rfl, rfl⟩

/-- C9 as stated fails: the code never path-escapes the zone, so a zone with
a space produces `/zones/a b/records` where the claim demands
`/zones/a%20b/records`. -/
theorem c9_counterexample : ¬ C9Claim := by
  intro h
  have hc := h "E" "a b" [] 200 Json.null
    ⟨"GET", "E" ++ ("/zones/" ++ "a b" ++ "/records"), none⟩ (Or.inl rfl)
  exact absurd hc (by decide)

/-- C9 amended: the request URL is the endpoint, `/zones/`, the zone string
verbatim (unescaped), and `/records`. -/
theorem c9_corrected :
    ∀ (endpoint zone : String) (records : List Record) (status : Nat) (body : Json)
      (req : HttpRequest),
      ((GetRecords endpoint zone status body).call = some req ∨
        (AppendRecords endpoint zone records status).call = some req ∨
        (SetRecords endpoint zone records status).call = some req ∨
        (DeleteRecords endpoint zone records status).call = some req) →
      req.url = endpoint ++ "/zones/" ++ zone ++ "/records" := by
  intro endpoint zone records status body req h
  by_cases hend : endpoint = ""
  · exfalso
    by_cases hrec : records = [] <;>
      rcases h with h | h | h | h <;>
      simp [GetRecords, AppendRecords, SetRecords, DeleteRecords, makeRequest, hend, hrec] at h
  · have hurl : endpoint ++ ("/zones/" ++ zone ++ "/records") =
        endpoint ++ "/zones/" ++ zone ++ "/records" := by
      simp [String.append_assoc]
    by_cases hrec : records = []
    · rcases h with h | h | h | h
      · rw [GetRecords_shape endpoint zone status body hend] at h
        simp only [Option.some.injEq] at h
        rw [← h, ← hurl]
      all_goals simp [AppendRecords, SetRecords, DeleteRecords, hrec] at h
    · rcases h with h | h | h | h
      · rw [GetRecords_shape endpoint zone status body hend] at h
        simp only [Option.some.injEq] at h
        rw [← h, ← hurl]
      · rw [AppendRecords_shape endpoint zone records status hrec hend] at h
        simp only [Option.some.injEq] at h
        rw [← h, ← hurl]
      · rw [SetRecords_shape endpoint zone records status hrec hend] at h
        simp only [Option.some.injEq] at h
        rw [← h, ← hurl]
      · rw [DeleteRecords_shape endpoint zone records status hrec hend] at h
        simp only [Option.some.injEq] at h
        rw [← h, ← hurl]

/-- Witness for C9: the amended URL shape at a concrete GET request. -/
theorem c9_witness :
    (⟨"GET", "E" ++ ("/zones/" ++ "z" ++ "/records"), none⟩ : HttpRequest).url =
      "E" ++ "/zones/" ++ "z" ++ "/records" :=
  c9_corrected "E" "z" [] 200 Json.null
    ⟨"GET", "E" ++ ("/zones/" ++ "z" ++ "/records"), none⟩ (Or.inl rfl)

theorem convert_bad_addr (r : RawRecord)
    (ht : upper r.type = "A" ∨ upper r.type = "AAAA") (hp : parseAddr r.value = none) :
    convertAPIRecordToLibDNS r = .error ("invalid IP address " ++ r.value) := by
  rcases ht with h | h <;> simp [convertAPIRecordToLibDNS, h, hp]

theorem retype_bad_addr (record : Record)
    (ht : upper record.RR.type = "A" ∨ upper record.RR.type = "AAAA")
    (hp : parseAddr record.RR.data = none) :
    retypeOne record = .rr record.RR := by
  rcases ht with h | h <;> simp [retypeOne, h, hp]

theorem convertRecords_error (raws : List RawRecord) (r : RawRecord) (hr : r ∈ raws)
    (e : String) (he : convertAPIRecordToLibDNS r = .error e) :
    ∃ msg, convertRecords raws = .error msg := by
  induction raws with
  | nil => simp at hr
  | cons r0 rs ih =>
    rcases List.mem_cons.mp hr with h | h
    · subst h
      exact ⟨e, by simp only [convertRecords, he]; rfl⟩
    · cases hc : convertAPIRecordToLibDNS r0 with
      | error e0 => exact ⟨e0, by simp only [convertRecords, hc]; rfl⟩
      | ok rec0 =>
        obtain ⟨msg, hmsg⟩ := ih h
        exact ⟨msg, by simp only [convertRecords, hc, hmsg]; rfl⟩

/-- C6: an A/AAAA record whose value is not an IP address makes the whole
GetRecords call fail, whichever accepted body shape delivered it and whatever
else the body contains. -/
theorem c6_invalid_ip_aborts :
    ∀ (endpoint zone : String) (body : Json) (raws : List RawRecord) (r : RawRecord),
      endpoint ≠ "" →
      (unmarshalRecordsObj body = .ok raws ∨
        ((∃ e, unmarshalRecordsObj body = .error e) ∧ unmarshalRawArray body = .ok raws)) →
      r ∈ raws →
      (upper r.type = "A" ∨ upper r.type = "AAAA") →
      parseAddr r.value = none →
      ∃ msg, (GetRecords endpoint zone 200 body).result = .error msg := by
  intro endpoint zone body raws r hend hbody hr ht hp
  obtain ⟨msg, hmsg⟩ :=
    convertRecords_error raws r hr ("invalid IP address " ++ r.value) (convert_bad_addr r ht hp)
  rw [GetRecords_shape endpoint zone 200 body hend]
  refine ⟨msg, ?_⟩
  have h200 : ¬ ((200 : Nat) ≠ 200) := by omega
  simp only [h200, if_false, reduceCtorEq, reduceIte]
  rcases hbody with h | ⟨⟨e, he⟩, harr⟩
  · simp [decodeGetBody, h, hmsg]
  · simp [decodeGetBody, he, harr, hmsg]

/-- Witness for C6: a bare-array body with one valid TXT record and one
A record with value `"not-an-ip"` makes GetRecords fail. -/
theorem c6_witness :
    ∃ msg,
      (GetRecords "E" "z" 200
        (Json.arr
          [Json.obj [("name", Json.str "good"), ("type", Json.str "TXT"),
            ("value", Json.str "x"), ("ttl", Json.num 60)],
          Json.obj [("name", Json.str "bad"), ("type", Json.str "A"),
            ("value", Json.str "not-an-ip"), ("ttl", Json.num 60)]])).result =
        .error msg := by
  refine c6_invalid_ip_aborts "E" "z" _ [⟨"good", "TXT", "x", 60⟩, ⟨"bad", "A", "not-an-ip", 60⟩]
    ⟨"bad", "A", "not-an-ip", 60⟩ (by decide) ?_ ?_ ?_ ?_
  · exact Or.inr ⟨⟨"cannot unmarshal into records object", rfl⟩, rfl⟩
  · simp
  · exact Or.inl (by decide)
  · decide

/-- C7: the re-type step never fails, produces exactly one output record per
input record in order, and keeps an unparsable A/AAAA record as its Generic
form. -/
theorem c7_retype_total :
    (∀ records : List Record, convertToSpecificTypes records = records.map retypeOne) ∧
    (∀ record : Record,
      (upper record.RR.type = "A" ∨ upper record.RR.type = "AAAA") →
      parseAddr record.RR.data = none →
      retypeOne record = .rr record.RR) :=
  ⟨convertToSpecificTypes_eq_map, retype_bad_addr⟩

/-- Witness for C7: an A record with unparsable data is kept as its Generic
form by the re-type step. -/
theorem c7_witness :
    retypeOne (.rr ⟨"n", "A", "nope", 0⟩) = .rr ⟨"n", "A", "nope", 0⟩ :=
  (c7_retype_total.2 (.rr ⟨"n", "A", "nope", 0⟩) (Or.inl (by decide)) (by decide)).trans
    (by decide)

theorem unmarshalRaw_encodeRaw (r : RawRecord) : unmarshalRaw (encodeRaw r) = .ok r := rfl

theorem unmarshalRawList_encode (rl : List RawRecord) :
    unmarshalRawList (rl.map encodeRaw) = .ok rl := by
  induction rl with
  | nil => rfl
  | cons r rs ih =>
    simp only [List.map_cons, unmarshalRawList, unmarshalRaw_encodeRaw, ih]
    rfl

/-- C5: the object shape is parsed first, the bare array only on its failure,
both failing is a decode error, and one record list decodes identically under
either accepted body shape. -/
theorem c5_parse_order :
    (∀ (body : Json) (raws : List RawRecord),
      unmarshalRecordsObj body = .ok raws → decodeGetBody body = convertRecords raws) ∧
    (∀ (body : Json) (e : String) (raws : List RawRecord),
      unmarshalRecordsObj body = .error e → unmarshalRawArray body = .ok raws →
      decodeGetBody body = convertRecords raws) ∧
    (∀ (body : Json) (e1 e2 : String),
      unmarshalRecordsObj body = .error e1 → unmarshalRawArray body = .error e2 →
      decodeGetBody body = .error "JSON decoding error") ∧
    (∀ raws : List RawRecord,
      decodeGetBody (Json.obj [("records", Json.arr (raws.map encodeRaw))]) =
        decodeGetBody (Json.arr (raws.map encodeRaw))) := by
  refine ⟨?_, ?_, ?_, ?_⟩
  · intro body raws h
    simp [decodeGetBody, h]
  · intro body e raws h harr
    simp [decodeGetBody, h, harr]
  · intro body e1 e2 h harr
    simp [decodeGetBody, h, harr]
  · intro raws
    have hobj : unmarshalRecordsObj (Json.obj [("records", Json.arr (raws.map encodeRaw))]) =
        .ok raws := by
      simp only [unmarshalRecordsObj]
      have hlook : lookupJson [("records", Json.arr (raws.map encodeRaw))] "records" =
          some (Json.arr (raws.map encodeRaw)) := rfl
      rw [hlook]
      simp only [unmarshalRawArray]
      exact unmarshalRawList_encode raws
    have harrfail : unmarshalRecordsObj (Json.arr (raws.map encodeRaw)) =
        .error "cannot unmarshal into records object" := rfl
    have harrok : unmarshalRawArray (Json.arr (raws.map encodeRaw)) = .ok raws := by
      simp only [unmarshalRawArray]
      exact unmarshalRawList_encode raws
    simp [decodeGetBody, hobj, harrfail, harrok]

/-- Witness for C5: the object branch evaluated at the empty object. -/
theorem c5_witness : decodeGetBody (Json.obj []) = convertRecords [] :=
  c5_parse_order.1 (Json.obj []) [] rfl

/-- C10 as stated fails: an object whose `records` member is not a record
array (here a number) falls through the bare-array parse into the decode
error. -/
theorem c10_counterexample : ¬ C10Claim := by
  intro h
  obtain ⟨out, hout, -⟩ := h [("records", Json.num 5)]
  rw [show decodeGetBody (Json.obj [("records", Json.num 5)]) =
      Except.error "JSON decoding error" from rfl] at hout
  exact Except.noConfusion hout

/-- C10 amended: an object body with no `records` member (such as the empty
object) succeeds with an empty list, and an object body whose `records`
member is a well-formed record array is decoded from the object parse, so the
fallback and the decode error are reachable only for non-object bodies or
objects with an ill-typed `records` member. -/
theorem c10_corrected :
    (∀ ms : List (String × Json), lookupJson ms "records" = none →
      decodeGetBody (Json.obj ms) = .ok []) ∧
    (∀ (ms : List (String × Json)) (v : Json) (raws : List RawRecord),
      lookupJson ms "records" = some v → unmarshalRawArray v = .ok raws →
      decodeGetBody (Json.obj ms) = convertRecords raws) := by
  constructor
  · intro ms h
    have hok : unmarshalRecordsObj (Json.obj ms) = .ok [] := by
      simp only [unmarshalRecordsObj, h]
    simp [decodeGetBody, hok, convertRecords]
  · intro ms v raws h hv
    have hok : unmarshalRecordsObj (Json.obj ms) = .ok raws := by
      simp only [unmarshalRecordsObj, h, hv]
    simp [decodeGetBody, hok]

/-- Witness for C10: an object with only unrelated members decodes to the
empty list. -/
theorem c10_witness : decodeGetBody (Json.obj [("x", Json.num 1)]) = .ok [] :=
  c10_corrected.1 [("x", Json.num 1)] rfl
